import Mathlib

/-!
Verification of the transfer-and-assembly orchestrator in `src/main.py`
(ipa-dumper).  The Python source is shallowly embedded: the staging
directory is a list of file paths (each path a list of components,
relative to `payload_dir`), the artifact mapping `file_dict` is an
insertion-ordered association list (Python dict semantics), and the frida
message handler together with the SCP transfer layer is a pure state
transformer parametrised by oracles describing which remote fetches
succeed and what tree a recursive directory fetch delivers.
-/

/-! ### String and path helpers (Python `str.find`, slicing, `pathlib.Path.name`) -/

/-- First index at or after the accumulator `i` where `pat` occurs in `s`
(the list-of-chars core of Python `str.find`). -/
def findSubAux (pat : List Char) : List Char → Nat → Option Nat
  | [], i => if pat = [] then some i else none
  | c :: rest, i =>
    if pat.isPrefixOf (c :: rest) then some i else findSubAux pat rest (i + 1)

/-- Python `s.find(pat)`: index of the first occurrence, `-1` if absent. -/
def pyFind (s pat : String) : Int :=
  match findSubAux pat.data s.data 0 with
  | some i => (i : Int)
  | none => -1

/-- Python `s[k:]` for a nonnegative start index. -/
def pyDrop (s : String) (k : Nat) : String :=
  ⟨s.data.drop k⟩

/-- The application-bundle boundary marker searched for in reported
original paths (source line 212: `payload['path'].find('.app/')`). -/
def appMarker : String := ".app/"

/-- Source lines 212-213: `index = payload['path'].find('.app/')` followed by
`payload['path'][index + 5:]`.  Note that when the marker is absent `find`
returns `-1`, so the slice taken is `path[4:]`. -/
def relAfterMarker (path : String) : String :=
  pyDrop path (pyFind path appMarker + 5).toNat

/-- `pathlib.Path(p).name`: the final path component (trailing slashes
stripped). -/
def pathName (p : String) : String :=
  ⟨(((p.data.reverse.dropWhile (fun c => c == '/')).takeWhile
      (fun c => c != '/'))).reverse⟩

/-- Split a string on `'/'` (accumulator holds the current component
reversed); used to interpret `payload_dir / app_name / value` where
`value` may itself contain slashes. -/
def splitSlashAux : List Char → List Char → List String
  | [], acc => [⟨acc.reverse⟩]
  | c :: rest, acc =>
    if c == '/' then ⟨acc.reverse⟩ :: splitSlashAux rest []
    else splitSlashAux rest (c :: acc)

/-- Split a relative path string into its components. -/
def splitSlash (s : String) : List String := splitSlashAux s.data []

/-- `s.endswith(t)` (source line 255: `item.name.endswith('.app')`). -/
def strEndsWith (s t : String) : Bool := t.data.isSuffixOf s.data

/-! ### Python dict semantics over association lists -/

/-- Dict lookup: first binding wins (keys are unique in an
insertion-ordered dict). -/
def lookupStr : List (String × String) → String → Option String
  | [], _ => none
  | p :: rest, key => if p.1 = key then some p.2 else lookupStr rest key

/-- `k in d` for a Python dict. -/
def hasKey (d : List (String × String)) (k : String) : Bool :=
  d.any (fun p => p.1 == k)

/-- `d[k] = v` for a Python dict: update in place if the key exists
(keeping its insertion position), otherwise append. -/
def dictInsert (d : List (String × String)) (k v : String) : List (String × String) :=
  if hasKey d k then d.map (fun p => if p.1 = k then (p.1, v) else p)
  else d ++ [(k, v)]

/-- Last binding of `key` in a sequential list of assignments — Python
class-body semantics, where a later `def` of the same name shadows an
earlier one. -/
def lookupLast {α : Type} : List (String × α) → String → Option α
  | [], _ => none
  | p :: rest, key =>
    match lookupLast rest key with
    | some v => some v
    | none => if p.1 = key then some p.2 else none

/-! ### Router state: artifact mapping, staged files, completion signal -/

/-- The mutable state touched by `IpaBuilder.on_message`:
`file_dict`, the contents of the staging directory `payload_dir`
(file paths as component lists, relative to `payload_dir`), and the
`finished` threading event. -/
structure RouterState where
  fileDict : List (String × String)
  fs : List (List String)
  finished : Bool
deriving DecidableEq

/-- `scp.get(remote, payload_dir)` stages the file under its basename
(overwriting an existing copy). -/
def stageFile (fs : List (List String)) (name : String) : List (List String) :=
  if fs.contains [name] then fs else fs ++ [[name]]

/-- Observable operations issued by a message handler, recorded as a
trace: the SSH liveness check and the SCP transfers. -/
inductive HOp where
  | ensureAlive : HOp
  | scpGetFile : String → HOp
  | scpGetDir : String → HOp
  | logError : HOp
deriving DecidableEq

/-- Source lines 208-215: the second (and therefore effective) definition
of `_handle_dump_payload`.  `payload['dump']` is read first (a missing key
raises before any transfer); on a successful `scp.get` the file is staged,
then `payload['path']` is read and the mapping entry recorded; any
exception is caught and logged inside the handler.  `fetchOk` is the
oracle saying which remote fetches succeed. -/
def handleDumpPayloadV2 (fetchOk : String → Bool) (st : RouterState)
    (pl : List (String × String)) : RouterState × List HOp :=
  match lookupStr pl "dump" with
  | none => (st, [HOp.logError])
  | some remote =>
    if fetchOk remote then
      let st1 : RouterState := { st with fs := stageFile st.fs (pathName remote) }
      match lookupStr pl "path" with
      | none => (st1, [HOp.scpGetFile remote, HOp.logError])
      | some origPath =>
        ({ st1 with
            fileDict := dictInsert st1.fileDict (pathName remote) (relAfterMarker origPath) },
         [HOp.scpGetFile remote])
    else (st, [HOp.scpGetFile remote, HOp.logError])

/-- Source lines 217-223: the second (effective) definition of
`_handle_app_payload`.  A successful recursive `scp.get` stages the tree
delivered by the `appTree` oracle and records the reserved mapping entry
`'app' -> Path(payload['app']).name`. -/
def handleAppPayloadV2 (fetchOk : String → Bool)
    (appTree : String → List (List String)) (st : RouterState)
    (pl : List (String × String)) : RouterState × List HOp :=
  match lookupStr pl "app" with
  | none => (st, [HOp.logError])
  | some remote =>
    if fetchOk remote then
      ({ st with
          fs := st.fs ++ appTree remote,
          fileDict := dictInsert st.fileDict "app" (pathName remote) },
       [HOp.scpGetDir remote])
    else (st, [HOp.scpGetDir remote, HOp.logError])

/-- Source lines 88-100: the first definition of `_handle_dump_payload`,
which calls `_ensure_ssh_connection()` before opening the SCP channel and
logs twice on failure (inner handler re-raises, outer handler logs
again).  Its state effect is identical to the second definition; shadowed
by it in the class body. -/
def handleDumpPayloadV1 (fetchOk : String → Bool) (st : RouterState)
    (pl : List (String × String)) : RouterState × List HOp :=
  match lookupStr pl "dump" with
  | none => (st, [HOp.ensureAlive, HOp.logError, HOp.logError])
  | some remote =>
    if fetchOk remote then
      let st1 : RouterState := { st with fs := stageFile st.fs (pathName remote) }
      match lookupStr pl "path" with
      | none => (st1, [HOp.ensureAlive, HOp.scpGetFile remote, HOp.logError, HOp.logError])
      | some origPath =>
        ({ st1 with
            fileDict := dictInsert st1.fileDict (pathName remote) (relAfterMarker origPath) },
         [HOp.ensureAlive, HOp.scpGetFile remote])
    else (st, [HOp.ensureAlive, HOp.scpGetFile remote, HOp.logError, HOp.logError])

/-- Source lines 102-113: the first definition of `_handle_app_payload`
(with the `_ensure_ssh_connection()` pre-check); shadowed by the second. -/
def handleAppPayloadV1 (fetchOk : String → Bool)
    (appTree : String → List (List String)) (st : RouterState)
    (pl : List (String × String)) : RouterState × List HOp :=
  match lookupStr pl "app" with
  | none => (st, [HOp.ensureAlive, HOp.logError, HOp.logError])
  | some remote =>
    if fetchOk remote then
      ({ st with
          fs := st.fs ++ appTree remote,
          fileDict := dictInsert st.fileDict "app" (pathName remote) },
       [HOp.ensureAlive, HOp.scpGetDir remote])
    else (st, [HOp.ensureAlive, HOp.scpGetDir remote, HOp.logError, HOp.logError])

/-- Common type of the payload handlers (fetch oracle, directory-tree
oracle, state, payload dict). -/
def HandlerFn : Type :=
  (String → Bool) → (String → List (List String)) → RouterState →
    List (String × String) → RouterState × List HOp

/-- The `IpaBuilder` class body binds `_handle_dump_payload` and
`_handle_app_payload` twice each (lines 88-113 and then lines 208-223);
Python executes these bindings sequentially, so the later definition
shadows the earlier one. -/
def ipaBuilderClassBody : List (String × HandlerFn) :=
  [("_handle_dump_payload", fun fok _ st pl => handleDumpPayloadV1 fok st pl),
   ("_handle_app_payload", fun fok tree st pl => handleAppPayloadV1 fok tree st pl),
   ("_handle_dump_payload", fun fok _ st pl => handleDumpPayloadV2 fok st pl),
   ("_handle_app_payload", fun fok tree st pl => handleAppPayloadV2 fok tree st pl)]

/-- The dump handler actually bound on `IpaBuilder` instances. -/
def effDumpHandler : HandlerFn :=
  (lookupLast ipaBuilderClassBody "_handle_dump_payload").getD (fun _ _ st _ => (st, []))

/-- The app handler actually bound on `IpaBuilder` instances. -/
def effAppHandler : HandlerFn :=
  (lookupLast ipaBuilderClassBody "_handle_app_payload").getD (fun _ _ st _ => (st, []))

/-! ### The message router (`IpaBuilder.on_message`, source lines 175-206) -/

/-- A frida script message as consumed by `on_message`: the `type` and
`description` fields of the message envelope and the optional `payload`
dict (absent payload is `none`; an empty dict `some []` is falsy in
Python, like an absent one). -/
structure FridaMessage where
  mtype : Option String
  description : Option String
  payload : Option (List (String × String))
deriving DecidableEq

/-- Source lines 175-206: classify the message in order — script error;
missing/falsy payload; structured `log` record; `dump` artifact; `app`
bundle; `done` completion signal — and run the corresponding action.
Transfer exceptions are caught by the handlers / the router, never
escaping the callback. -/
def on_message (fetchOk : String → Bool) (appTree : String → List (List String))
    (st : RouterState) (m : FridaMessage) : RouterState × List HOp :=
  if m.mtype = some "error" then (st, [HOp.logError])
  else
    match m.payload with
    | none => (st, [])
    | some pl =>
      if pl = [] then (st, [])
      else if lookupStr pl "type" = some "log" then (st, [])
      else if hasKey pl "dump" then effDumpHandler fetchOk appTree st pl
      else if hasKey pl "app" then effAppHandler fetchOk appTree st pl
      else if hasKey pl "done" then ({ st with finished := true }, [])
      else (st, [])

/-- Fold the router over a message stream (frida serialises delivery, so
the stream is processed one message at a time). -/
def runMessages (fetchOk : String → Bool) (appTree : String → List (List String))
    (st : RouterState) : List FridaMessage → RouterState
  | [] => st
  | m :: rest => runMessages fetchOk appTree (on_message fetchOk appTree st m).1 rest

/-! ### Assembly (`IpaBuilder.generate_ipa`, source lines 225-263) -/

/-- `self.payload_dir / app_name / value`: the move target of a staged
artifact, as a component path relative to `payload_dir`. -/
def moveTarget (appName v : String) : List String := appName :: splitSlash v

/-- Source lines 235-239: iterate `file_dict` in insertion order; for each
non-reserved key, `shutil.move(payload_dir / key, payload_dir / app_name / value)`
(parent directories created first).  Moving a missing source raises, which
aborts the loop with the staging contents as left at that point
(`Except.error`). -/
def moveEntries (appName : String) :
    List (String × String) → List (List String) →
      Except (List (List String)) (List (List String))
  | [], fs => Except.ok fs
  | (k, v) :: rest, fs =>
    if k = "app" then moveEntries appName rest fs
    else if fs.contains [k] then
      moveEntries appName rest
        (fs.map (fun p => if p = [k] then moveTarget appName v else p))
    else Except.error fs

/-- Source line 242: `app_folder.exists() and app_folder.is_dir()` — in
the files-only model, `name` is a directory iff some file lives strictly
below it and no file occupies the name itself. -/
def isDirIn (fs : List (List String)) (name : String) : Bool :=
  (fs.any (fun p => p.headI == name && decide (2 ≤ p.length))) && !(fs.contains [name])

/-- Source lines 245-248: the zip entry list — every file under
`app_folder`, archived under its path relative to `payload_dir.parent`
(the output directory), i.e. with the staging directory name `Payload`
as leading component. -/
def zipEntries (fs : List (List String)) (appName : String) : List (List String) :=
  (fs.filter (fun p => p.headI == appName)).map (fun p => "Payload" :: p)

/-- Source lines 253-263 (the `finally` block): delete every top-level
staging entry except directories whose name ends in `.app`; in the path
model a file survives iff it lies below a retained top-level directory. -/
def cleanupStaging (fs : List (List String)) : List (List String) :=
  fs.filter (fun p => decide (2 ≤ p.length) && strEndsWith p.headI ".app")

/-- Result of `generate_ipa`: the archive file name (if the zip was
written), its entry list, the staging contents after the `finally`
cleanup, and whether the `except` branch at line 251 fired. -/
structure IpaResult where
  archiveName : Option String
  archive : Option (List (List String))
  fs : List (List String)
  errorLogged : Bool
deriving DecidableEq

/-- Source lines 225-263, `IpaBuilder.generate_ipa`.  All exceptions
raised in the body (missing/falsy `app` mapping entry, missing move
source, missing bundle-root directory) are caught by the `except` clause
at line 251, which only logs; the `finally` cleanup then runs.  The
function itself never raises and returns no value. -/
def generate_ipa (displayName : String) (fileDict : List (String × String))
    (fs : List (List String)) : IpaResult :=
  match lookupStr fileDict "app" with
  | none =>
    { archiveName := none, archive := none, fs := cleanupStaging fs, errorLogged := true }
  | some appName =>
    if appName = "" then
      { archiveName := none, archive := none, fs := cleanupStaging fs, errorLogged := true }
    else
      match moveEntries appName fileDict fs with
      | Except.error fsStopped =>
        { archiveName := none, archive := none,
          fs := cleanupStaging fsStopped, errorLogged := true }
      | Except.ok fs' =>
        if isDirIn fs' appName then
          { archiveName := some (displayName ++ ".ipa"),
            archive := some (zipEntries fs' appName),
            fs := cleanupStaging fs', errorLogged := false }
        else
          { archiveName := none, archive := none,
            fs := cleanupStaging fs', errorLogged := true }

/-- Source lines 163-168, `IpaBuilder.create_directories`: `payload_dir`
is removed wholesale (read-only entries forced) and recreated empty, so a
run always starts from an empty staging directory whatever the previous
run left behind. -/
def create_directories (_previous : List (List String)) : List (List String) := []

/-! ### Run lifecycle (`IpaBuilder.dump_app`, source lines 266-346, and `main`) -/

/-- Source line 309: `self.finished.wait(timeout=7200)`. -/
def dumpTimeoutSeconds : Nat := 7200

/-- Whether the bounded wait at line 309 returns `True`: the completion
signal was set within the timeout (`none` = never set). -/
def waitFinished (doneAfter : Option Nat) : Bool :=
  match doneAfter with
  | none => false
  | some t => decide (t ≤ dumpTimeoutSeconds)

/-- Outcome of one run as observed by `dump_app` and `main`:
the returned success flag, whether the `TimeoutError` at line 310 was
raised (it is then swallowed by the `return success` inside the `finally`
block at line 346), which summary block is printed, and the process exit
status chosen by `main` (lines 425-426). -/
structure RunReport where
  success : Bool
  timeoutRaised : Bool
  failureSummary : Bool
  exitCode : Nat
deriving DecidableEq

/-- Source lines 266-346, `IpaBuilder.dump_app`, after the dump script
has produced router state `st`: if no session was attached the run fails;
if the completion signal did not fire within the bounded wait a
`TimeoutError` is raised (and swallowed by the `finally` return, leaving
`success = False`); otherwise `generate_ipa` is invoked — whose internal
failures it never sees — and the run is reported successful. -/
def dump_app (displayName : String) (sessionFound : Bool) (doneAfter : Option Nat)
    (st : RouterState) : RunReport × Option IpaResult :=
  if sessionFound then
    if waitFinished doneAfter then
      let r := generate_ipa displayName st.fileDict st.fs
      ({ success := true, timeoutRaised := false, failureSummary := false, exitCode := 0 },
       some r)
    else
      ({ success := false, timeoutRaised := true, failureSummary := true, exitCode := 1 },
       none)
  else
    ({ success := false, timeoutRaised := false, failureSummary := true, exitCode := 1 },
     none)

/-! ### Credential configuration (`SSHConfig.__post_init__` and `main`) -/

/-- Python truthiness of an optional string option (`None` and `""` are
falsy). -/
def pyTruthy : Option String → Bool
  | none => false
  | some s => s != ""

/-- Source lines 38-40, `SSHConfig.__post_init__`: raise unless at least
one of `password` / `key_filename` is truthy. -/
def sshconfigPostInit (password keyFilename : Option String) : Except String Unit :=
  if !pyTruthy password && !pyTruthy keyFilename then
    Except.error "Either password or key_filename must be provided"
  else Except.ok ()

/-- The externally visible phases of `main` (source lines 402-431) that
matter for the credential check: the argparse-level error at lines
406-407, then SSH connection, then the dump itself. -/
inductive MainStep where
  | argCheckFailed : MainStep
  | sshConnect : MainStep
  | dumpRun : MainStep
deriving DecidableEq

/-- Source lines 402-423: `main` rejects a command line lacking both
`--password` and `--key-file` before constructing `SSHConfig`; otherwise
it builds the config (whose own check then passes) and connects. -/
def mainSteps (password keyFile : Option String) : List MainStep :=
  if !pyTruthy password && !pyTruthy keyFile then [MainStep.argCheckFailed]
  else [MainStep.sshConnect, MainStep.dumpRun]

/-! ### Specification-side definitions (written from the claim wording,
for the refinement-style claims) -/

/-- Message classes of the router precedence stated in the spec (§4.2). -/
inductive MsgClass where
  | errorReport : MsgClass
  | noPayload : MsgClass
  | logRecord : MsgClass
  | dumpArtifact : MsgClass
  | appBundle : MsgClass
  | doneSignal : MsgClass
  | unrecognized : MsgClass
deriving DecidableEq

/-- Modelled from the claim wording: classify an incoming message in the
stated precedence — error report, then missing payload, then structured
log record, then `dump` artifact, then `app` bundle root, then `done`
completion signal. -/
def classifySpec (m : FridaMessage) : MsgClass :=
  if m.mtype = some "error" then MsgClass.errorReport
  else
    match m.payload with
    | none => MsgClass.noPayload
    | some pl =>
      if pl = [] then MsgClass.noPayload
      else if lookupStr pl "type" = some "log" then MsgClass.logRecord
      else if hasKey pl "dump" then MsgClass.dumpArtifact
      else if hasKey pl "app" then MsgClass.appBundle
      else if hasKey pl "done" then MsgClass.doneSignal
      else MsgClass.unrecognized

/-- The action the claim assigns to each message class. -/
def routeByClass (fetchOk : String → Bool) (appTree : String → List (List String))
    (st : RouterState) (m : FridaMessage) : MsgClass → RouterState × List HOp
  | MsgClass.errorReport => (st, [HOp.logError])
  | MsgClass.noPayload => (st, [])
  | MsgClass.logRecord => (st, [])
  | MsgClass.dumpArtifact =>
    match m.payload with
    | some pl => effDumpHandler fetchOk appTree st pl
    | none => (st, [])
  | MsgClass.appBundle =>
    match m.payload with
    | some pl => effAppHandler fetchOk appTree st pl
    | none => (st, [])
  | MsgClass.doneSignal => ({ st with finished := true }, [])
  | MsgClass.unrecognized => (st, [])

/-- Whether a message reaches the `done` branch of the router. -/
def isDoneMessage (m : FridaMessage) : Bool :=
  classifySpec m == MsgClass.doneSignal

/-- Whether `s` contains the `.app/` marker. -/
def hasMarker (s : String) : Bool :=
  (findSubAux appMarker.data s.data 0).isSome

/-- Claim-side characterisation: `v` is the substring of `path` strictly
after the first occurrence of the `.app/` marker. -/
def isAfterFirstMarker (path v : String) : Prop :=
  ∃ i, appMarker.data.isPrefixOf (path.data.drop i) = true ∧
    (∀ j < i, appMarker.data.isPrefixOf (path.data.drop j) = false) ∧
    v.data = path.data.drop (i + appMarker.data.length)

/-- Claim-side per-file description of the move phase of assembly: a
top-level staged file whose name is a non-reserved key of the mapping is
relocated to `bundleRoot/<relativePath>`; every other file is untouched. -/
def moveFun (fileDict : List (String × String)) (appName : String) :
    List String → List String
  | [k] =>
    if k = "app" then [k]
    else
      match lookupStr fileDict k with
      | some v => moveTarget appName v
      | none => [k]
  | p => p

/-- Claim-side description of the bundle layout after the move phase of
assembly. -/
def movedSpec (fileDict : List (String × String)) (appName : String)
    (fs : List (List String)) : List (List String) :=
  fs.map (moveFun fileDict appName)

/-- A message whose processing never consults the transfer oracle at
remote path `r` and never stages a file with basename `bn`: its payload
(if any) has no `app` field naming `r` and no `dump` field naming `r` or
any remote whose basename is `bn`. -/
def avoidsArtifact (r bn : String) (m : FridaMessage) : Bool :=
  match m.payload with
  | none => true
  | some pl =>
    (match lookupStr pl "app" with
     | some a => a != r
     | none => true) &&
    (match lookupStr pl "dump" with
     | some r' => r' != r && pathName r' != bn
     | none => true)

/-- How the state of the hypothetical all-transfers-succeed run (`sF`)
relates to the state of the run missing one artifact (`sD`): the full
run's mapping holds one extra binding `bn -> rel` at some position, its
staging holds the one extra staged file `[bn]`, the basename `bn` is
otherwise fresh on both sides, and the completion signals agree. -/
def DiffInv (bn rel : String) (sF sD : RouterState) : Prop :=
  (∃ d1 d2, sF.fileDict = d1 ++ (bn, rel) :: d2 ∧ sD.fileDict = d1 ++ d2 ∧
      bn ∉ (d1 ++ d2).map Prod.fst) ∧
  (∃ f1 f2, sF.fs = f1 ++ [bn] :: f2 ∧ sD.fs = f1 ++ f2 ∧ [bn] ∉ f1 ++ f2) ∧
  sF.finished = sD.finished

/-- Concrete bundle-root message of the graceful-degradation scenario. -/
def wMsgApp : FridaMessage :=
  ⟨none, none, some [("app", "/var/containers/Foo.app")]⟩

/-- Concrete artifact message whose transfer fails in the scenario. -/
def wMsgDump : FridaMessage :=
  ⟨none, none, some [("dump", "/tmp/X.bin"), ("path", "/var/containers/Foo.app/X.bin")]⟩

/-- Concrete completion message of the scenario. -/
def wMsgDone : FridaMessage :=
  ⟨none, none, some [("done", "1")]⟩

/-- Concrete directory-tree oracle of the scenario: a recursive fetch
delivers the bundle folder with one file inside. -/
def wTree : String → List (List String) :=
  fun _ => [["Foo.app", "Info.plist"]]

/-! ### Sanity checks on concrete inputs -/

example :
    (on_message (fun _ => true) (fun _ => [])
      ⟨[], [], false⟩
      ⟨none, none, some [("dump", "/tmp/X.bin"), ("path", "/var/Foo.app/Sub/X.bin")]⟩).1
    = ⟨[("X.bin", "Sub/X.bin")], [["X.bin"]], false⟩ := by decide

example :
    (generate_ipa "Foo" [("app", "Foo.app"), ("X.bin", "Sub/X.bin")]
      [["X.bin"], ["Foo.app", "Info.plist"]]) =
    { archiveName := some "Foo.ipa",
      archive := some [["Payload", "Foo.app", "Sub", "X.bin"],
                       ["Payload", "Foo.app", "Info.plist"]],
      fs := [["Foo.app", "Sub", "X.bin"], ["Foo.app", "Info.plist"]],
      errorLogged := false } := by decide

/-! ### Basic lemmas about the embedded definitions -/

/-- Resolving `_handle_dump_payload` on the class body yields the second
definition: Python's sequential class-body execution makes the later
`def` shadow the earlier one. -/
lemma effDumpHandler_eq :
    effDumpHandler = fun fok _ st pl => handleDumpPayloadV2 fok st pl := rfl

/-- Resolving `_handle_app_payload` likewise yields the second definition. -/
lemma effAppHandler_eq :
    effAppHandler = fun fok tree st pl => handleAppPayloadV2 fok tree st pl := rfl

/-- Updating the value stored at `k` makes lookup of `k` return the new
value, provided `k` is present. -/
lemma lookupStr_map_update_self (k v : String) :
    ∀ d : List (String × String), hasKey d k = true →
      lookupStr (d.map (fun p => if p.1 = k then (p.1, v) else p)) k = some v := by
  intro d
  induction d with
  | nil => intro h; simp [hasKey] at h
  | cons p rest ih =>
    intro h
    by_cases hpk : p.1 = k
    · simp [lookupStr, hpk]
    · have hr : hasKey rest k = true := by
        simpa [hasKey, hpk] using h
      simp only [List.map_cons, lookupStr, hpk, if_false]
      exact ih hr

/-- Updating the value stored at `k` does not change lookup of another
key. -/
lemma lookupStr_map_update_ne (k v k' : String) (h : k' ≠ k) :
    ∀ d : List (String × String),
      lookupStr (d.map (fun p => if p.1 = k then (p.1, v) else p)) k' = lookupStr d k' := by
  intro d
  induction d with
  | nil => rfl
  | cons p rest ih =>
    by_cases hpk : p.1 = k
    · have hq : ¬(p.1 = k') := fun hh => h (hh.symm.trans hpk)
      simp only [List.map_cons, lookupStr]
      rw [if_pos hpk]
      simpa [hq] using ih
    · simp only [List.map_cons, lookupStr, hpk, if_false]
      by_cases hq : p.1 = k'
      · rw [if_pos hq, if_pos hq]
      · rw [if_neg hq, if_neg hq]
        exact ih

/-- Appending a fresh binding does not change lookup of another key. -/
lemma lookupStr_append_single (k v k' : String) (h : k' ≠ k) :
    ∀ d : List (String × String),
      lookupStr (d ++ [(k, v)]) k' = lookupStr d k' := by
  intro d
  induction d with
  | nil =>
    show lookupStr [(k, v)] k' = none
    rw [lookupStr, if_neg (fun hh => h hh.symm)]
    rfl
  | cons p rest ih =>
    simp only [List.cons_append, lookupStr]
    by_cases hq : p.1 = k'
    · rw [if_pos hq, if_pos hq]
    · rw [if_neg hq, if_neg hq]
      exact ih

/-- Looking up the freshly written key of a dict assignment returns the
assigned value. -/
lemma lookupStr_dictInsert (d : List (String × String)) (k v : String) :
    lookupStr (dictInsert d k v) k = some v := by
  unfold dictInsert
  by_cases h : hasKey d k
  · rw [if_pos h]
    exact lookupStr_map_update_self k v d h
  · rw [if_neg h]
    induction d with
    | nil =>
      show lookupStr [(k, v)] k = some v
      rw [lookupStr, if_pos rfl]
    | cons p rest ih =>
      have hpk : ¬(p.1 = k) := by
        intro hk
        exact h (by simp [hasKey, hk])
      have hr : ¬(hasKey rest k = true) := by
        intro hk
        exact h (by simp [hasKey] at hk ⊢; exact Or.inr hk)
      simp only [List.cons_append, lookupStr]
      rw [if_neg hpk]
      exact ih hr

/-- Dict assignment leaves other keys unchanged. -/
lemma lookupStr_dictInsert_ne (d : List (String × String)) (k v k' : String)
    (h : k' ≠ k) : lookupStr (dictInsert d k v) k' = lookupStr d k' := by
  unfold dictInsert
  by_cases hk : hasKey d k
  · rw [if_pos hk]
    exact lookupStr_map_update_ne k v k' h d
  · rw [if_neg hk]
    exact lookupStr_append_single k v k' h d

/-- Every path surviving the staging cleanup lies below a retained
`.app`-suffixed top-level directory. -/
lemma cleanupStaging_all (fs : List (List String)) :
    (cleanupStaging fs).all
      (fun p => decide (2 ≤ p.length) && strEndsWith p.headI ".app") = true := by
  rw [List.all_eq_true]
  intro p hp
  exact (List.mem_filter.mp hp).2

/-- The dump handler never touches the completion signal. -/
lemma handleDumpPayloadV2_finished (fok : String → Bool) (st : RouterState)
    (pl : List (String × String)) :
    (handleDumpPayloadV2 fok st pl).1.finished = st.finished := by
  unfold handleDumpPayloadV2
  cases hd : lookupStr pl "dump" with
  | none => rfl
  | some remote =>
    cases hf : fok remote with
    | false => simp [hf]
    | true =>
      cases hp : lookupStr pl "path" with
      | none => simp [hf, hp]
      | some origPath => simp [hf, hp]

/-- The app handler never touches the completion signal. -/
lemma handleAppPayloadV2_finished (fok : String → Bool)
    (tree : String → List (List String)) (st : RouterState)
    (pl : List (String × String)) :
    (handleAppPayloadV2 fok tree st pl).1.finished = st.finished := by
  unfold handleAppPayloadV2
  cases ha : lookupStr pl "app" with
  | none => rfl
  | some remote =>
    cases hf : fok remote with
    | false => simp [hf]
    | true => simp [hf]

/-- Processing any single message can only raise the completion signal,
never clear it: it ends set exactly when it was already set or the
message is a `done` message. -/
lemma on_message_finished (fok : String → Bool) (tree : String → List (List String))
    (st : RouterState) (m : FridaMessage) :
    (on_message fok tree st m).1.finished = (st.finished || isDoneMessage m) := by
  unfold on_message isDoneMessage classifySpec
  by_cases h1 : m.mtype = some "error"
  · simp [h1]
  · simp only [h1, if_false]
    cases hp : m.payload with
    | none => simp
    | some pl =>
      by_cases h2 : pl = []
      · simp [h2]
      · simp only [h2, if_false]
        by_cases h3 : lookupStr pl "type" = some "log"
        · simp [h3]
        · simp only [h3, if_false]
          by_cases h4 : hasKey pl "dump"
          · simp only [h4, if_true, effDumpHandler_eq]
            simp [handleDumpPayloadV2_finished]
          · simp only [h4, if_false]
            by_cases h5 : hasKey pl "app"
            · simp only [h5, if_true, effAppHandler_eq]
              simp [handleAppPayloadV2_finished]
            · simp only [h5, if_false]
              by_cases h6 : hasKey pl "done"
              · simp [h6]
              · simp [h6]

/-- The completion signal after a whole stream: set iff it was already
set or some message of the stream is a `done` message. -/
lemma runMessages_finished (fok : String → Bool) (tree : String → List (List String)) :
    ∀ (msgs : List FridaMessage) (st : RouterState),
      (runMessages fok tree st msgs).finished = (st.finished || msgs.any isDoneMessage) := by
  intro msgs
  induction msgs with
  | nil => intro st; simp [runMessages]
  | cons m rest ih =>
    intro st
    rw [runMessages, ih, on_message_finished]
    simp [Bool.or_assoc]

/-! ### Claim C10 — router classification precedence -/

/-- Claim C10: `on_message` classifies every incoming message in this
exact precedence — error report (logged, non-fatal return); missing/falsy
payload (no action); structured log payload (logged); then a `dump` field
(artifact transfer) takes precedence over an `app` field (bundle-root
transfer), which takes precedence over a `done` field (completion
signal).  Moreover an already-set completion signal stays set whatever
message arrives, so the `done` action is idempotent. -/
theorem on_message_classification (fok : String → Bool)
    (tree : String → List (List String)) (st : RouterState) (m : FridaMessage) :
    on_message fok tree st m = routeByClass fok tree st m (classifySpec m) ∧
      (on_message fok tree { st with finished := true } m).1.finished = true := by
  constructor
  · unfold on_message classifySpec routeByClass
    by_cases h1 : m.mtype = some "error"
    · simp [h1]
    · simp only [h1, if_false]
      cases hp : m.payload with
      | none => simp
      | some pl =>
        by_cases h2 : pl = []
        · simp [h2]
        · simp only [h2, if_false]
          by_cases h3 : lookupStr pl "type" = some "log"
          · simp [h3]
          · simp only [h3, if_false]
            by_cases h4 : hasKey pl "dump"
            · simp [h4]
            · simp only [h4, if_false]
              by_cases h5 : hasKey pl "app"
              · simp [h5]
              · simp only [h5, if_false]
                by_cases h6 : hasKey pl "done"
                · simp [h6]
                · simp [h6]
  · rw [on_message_finished]
    simp

/-! ### Claim C7 — bounded wait and timeout failure -/

/-- Claim C7: when the completion signal is not set within the bounded
wait of `7200` seconds, `dump_app` raises `TimeoutError`, never reports
success, prints the failure summary, and `main` exits with status 1 —
never a successful exit. -/
theorem dump_timeout_fails_run (displayName : String) (st : RouterState)
    (doneAfter : Option Nat) (h : waitFinished doneAfter = false) :
    dump_app displayName true doneAfter st =
      ({ success := false, timeoutRaised := true, failureSummary := true, exitCode := 1 },
       none) := by
  unfold dump_app
  simp [h]

/-- Witness for claim C7 at a concrete run where the signal never fires. -/
theorem dump_timeout_fails_run_witness :
    waitFinished none = false ∧
      dump_app "Target" true none ⟨[], [], false⟩ =
        ({ success := false, timeoutRaised := true, failureSummary := true, exitCode := 1 },
         none) :=
  ⟨by decide, dump_timeout_fails_run "Target" ⟨[], [], false⟩ none (by decide)⟩

/-! ### Claim C3 — assembly failures are swallowed, not propagated -/

/-- Claim C3 (behaviour of the code at the failing inputs): when the
artifact mapping lacks the reserved `app` entry (first conjunct) or the
bundle-root directory does not exist (second conjunct), the
`RuntimeError` raised inside `generate_ipa` is caught by its own
`except` clause at line 251 and only logged; `dump_app` then sets
`success = True` and `main` exits with status 0.  The failure never
propagates to the top level. -/
theorem assembly_failure_swallowed :
    ((dump_app "Foo" true (some 10) ⟨[("X.bin", "X.bin")], [["X.bin"]], true⟩).1
        = { success := true, timeoutRaised := false, failureSummary := false, exitCode := 0 } ∧
      (dump_app "Foo" true (some 10) ⟨[("X.bin", "X.bin")], [["X.bin"]], true⟩).2
        = some { archiveName := none, archive := none, fs := [], errorLogged := true }) ∧
    ((dump_app "Bar" true (some 10) ⟨[("app", "Foo.app")], [], true⟩).1
        = { success := true, timeoutRaised := false, failureSummary := false, exitCode := 0 } ∧
      (dump_app "Bar" true (some 10) ⟨[("app", "Foo.app")], [], true⟩).2
        = some { archiveName := none, archive := none, fs := [], errorLogged := true }) := by
  decide

/-! ### Claim C5 — paths lacking the `.app/` marker are not rejected -/

/-- Claim C5 (behaviour of the code at the failing input): for a
`dumpFile` message whose original path lacks the `.app/` marker,
`str.find` returns `-1`, the handler slices `path[4:]`, and a mangled
mapping entry is recorded — the message is not rejected. -/
theorem malformed_path_records_mangled_entry :
    hasMarker "Documents/X.bin" = false ∧
      (on_message (fun _ => true) (fun _ => []) ⟨[], [], false⟩
          ⟨none, none, some [("dump", "/tmp/X.bin"), ("path", "Documents/X.bin")]⟩).1.fileDict
        = [("X.bin", "ments/X.bin")] := by
  decide

/-! ### Claim C6 — the liveness check is shadowed out of the live code -/

/-- Claim C6 (behaviour of the code at the failing input): resolving the
handlers on the class body yields the second definitions (lines 208-223),
which issue the SCP transfer with no preceding `_ensure_ssh_connection`
call — unlike the shadowed first definition (lines 88-100), whose trace
starts with the liveness check. -/
theorem transfer_issued_without_liveness_check :
    ((effDumpHandler (fun _ => true) (fun _ => []) ⟨[], [], false⟩
        [("dump", "/tmp/X.bin"), ("path", "/a/F.app/X.bin")]).2
      = [HOp.scpGetFile "/tmp/X.bin"]) ∧
    ((effAppHandler (fun _ => true) (fun _ => []) ⟨[], [], false⟩
        [("app", "/var/Foo.app")]).2
      = [HOp.scpGetDir "/var/Foo.app"]) ∧
    ((handleDumpPayloadV1 (fun _ => true) ⟨[], [], false⟩
        [("dump", "/tmp/X.bin"), ("path", "/a/F.app/X.bin")]).2
      = [HOp.ensureAlive, HOp.scpGetFile "/tmp/X.bin"]) ∧
    lookupLast ipaBuilderClassBody "_handle_dump_payload"
      = some (fun fok _ st pl => handleDumpPayloadV2 fok st pl) ∧
    lookupLast ipaBuilderClassBody "_handle_app_payload"
      = some (fun fok tree st pl => handleAppPayloadV2 fok tree st pl) :=
  ⟨by decide, by decide, by decide, rfl, rfl⟩

/-! ### Claim C8 — post-assembly cleanup retains the bundle root -/

/-- Claim C8 counterexample: after a (successful) assembly the `finally`
cleanup removes the stray top-level file but retains the `.app` bundle
directory and its contents — the staging directory is not empty once
assembly completes. -/
theorem staging_keeps_bundle_root_after_assembly :
    (generate_ipa "Foo" [("app", "Foo.app")]
        [["Foo.app", "Info.plist"], ["stray.bin"]]).fs
      = [["Foo.app", "Info.plist"]] := by
  decide

/-- Claim C8 as amended: after assembly (success or failure) every
surviving staged path lies below a retained `.app`-suffixed top-level
directory (everything else is removed), and the bundle root itself is
only removed at the start of the next run, when `create_directories`
recreates staging empty. -/
theorem cleanup_retains_only_app_dirs (displayName : String)
    (d : List (String × String)) (fs : List (List String)) :
    ((generate_ipa displayName d fs).fs.all
        (fun p => decide (2 ≤ p.length) && strEndsWith p.headI ".app") = true) ∧
      create_directories (generate_ipa displayName d fs).fs = [] := by
  refine ⟨?_, rfl⟩
  unfold generate_ipa
  repeat' split
  all_goals exact cleanupStaging_all _

/-! ### Claim C9 — credential validation accepts both methods at once -/

/-- Claim C9 counterexample: a configuration supplying both a password
and key material is accepted by `SSHConfig.__post_init__`, not rejected. -/
theorem both_credentials_accepted :
    sshconfigPostInit (some "secret") (some "/root/.ssh/id_rsa") = Except.ok () ∧
      pyTruthy (some "secret") = true ∧ pyTruthy (some "/root/.ssh/id_rsa") = true :=
  ⟨rfl, rfl, rfl⟩

/-- Claim C9 as amended: construction succeeds iff at least one
authentication method is usable (truthy); a configuration lacking both
fails before any connection attempt (`main` stops at the argument check
and never reaches the SSH connection step), and one supplying both is
accepted. -/
theorem construction_requires_some_credential (password keyFile : Option String) :
    ((sshconfigPostInit password keyFile = Except.ok ()) ↔
        (pyTruthy password || pyTruthy keyFile) = true) ∧
      (mainSteps password keyFile).contains MainStep.sshConnect
        = (pyTruthy password || pyTruthy keyFile) := by
  cases hp : pyTruthy password <;> cases hk : pyTruthy keyFile <;>
    constructor <;>
    simp [sshconfigPostInit, mainSteps, hp, hk]

/-! ### Claim C4 — bundle-relative path derivation -/

/-- `findSubAux` finds the first occurrence: a returned index marks a
prefix match at that offset from the accumulator, and no earlier offset
matches. -/
lemma findSubAux_spec (pat : List Char) :
    ∀ (s : List Char) (j i : Nat), findSubAux pat s j = some i →
      ∃ k, i = j + k ∧ pat.isPrefixOf (s.drop k) = true ∧
        ∀ k' < k, pat.isPrefixOf (s.drop k') = false := by
  intro s
  induction s with
  | nil =>
    intro j i h
    unfold findSubAux at h
    by_cases hp : pat = []
    · rw [if_pos hp] at h
      obtain rfl : j = i := Option.some.inj h
      subst hp
      exact ⟨0, by omega, by decide, fun k' hk' => absurd hk' (Nat.not_lt_zero k')⟩
    · rw [if_neg hp] at h
      exact absurd h (by simp)
  | cons c rest ih =>
    intro j i h
    unfold findSubAux at h
    by_cases hpre : pat.isPrefixOf (c :: rest) = true
    · rw [if_pos hpre] at h
      obtain rfl : j = i := Option.some.inj h
      exact ⟨0, by omega, by simpa using hpre,
        fun k' hk' => absurd hk' (Nat.not_lt_zero k')⟩
    · rw [if_neg hpre] at h
      obtain ⟨k, hk, hkpre, hmin⟩ := ih (j + 1) i h
      refine ⟨k + 1, by omega, ?_, ?_⟩
      · simpa [List.drop_succ_cons] using hkpre
      · intro k' hk'
        cases k' with
        | zero => simpa using Bool.eq_false_iff.mpr hpre
        | succ k'' =>
          have := hmin k'' (by omega)
          simpa [List.drop_succ_cons] using this

/-- Claim C4: for every `dumpFile` message whose reported original path
contains the `.app/` marker, the effective handler records in the
artifact mapping an entry from the artifact's local filename to the
substring of the original path strictly after the first occurrence of
`.app/`. -/
theorem dump_message_records_relative_path
    (fok : String → Bool) (tree : String → List (List String)) (st : RouterState)
    (pl : List (String × String)) (remote origPath : String)
    (hd : lookupStr pl "dump" = some remote)
    (hp : lookupStr pl "path" = some origPath)
    (hf : fok remote = true)
    (hm : hasMarker origPath = true) :
    lookupStr (effDumpHandler fok tree st pl).1.fileDict (pathName remote)
        = some (relAfterMarker origPath) ∧
      isAfterFirstMarker origPath (relAfterMarker origPath) := by
  constructor
  · rw [effDumpHandler_eq]
    show lookupStr (handleDumpPayloadV2 fok st pl).1.fileDict (pathName remote) = _
    unfold handleDumpPayloadV2
    simp only [hd, hf, if_true, hp]
    exact lookupStr_dictInsert _ _ _
  · unfold hasMarker at hm
    obtain ⟨i, hi⟩ := Option.isSome_iff_exists.mp hm
    obtain ⟨k, hk, hkpre, hmin⟩ := findSubAux_spec appMarker.data origPath.data 0 i hi
    refine ⟨k, hkpre, hmin, ?_⟩
    unfold relAfterMarker pyDrop pyFind
    simp only [hi]
    have hlen : appMarker.data.length = 5 := rfl
    have hnat : ((i : Int) + 5).toNat = k + 5 := by omega
    rw [hlen, hnat]

/-- Witness for claim C4 at a concrete dump message. -/
theorem dump_message_records_relative_path_witness :
    lookupStr [("dump", "/tmp/X.bin"), ("path", "/var/Foo.app/Sub/X.bin")] "dump"
        = some "/tmp/X.bin" ∧
    hasMarker "/var/Foo.app/Sub/X.bin" = true ∧
    (lookupStr (effDumpHandler (fun _ => true) (fun _ => []) ⟨[], [], false⟩
        [("dump", "/tmp/X.bin"), ("path", "/var/Foo.app/Sub/X.bin")]).1.fileDict
        (pathName "/tmp/X.bin") = some (relAfterMarker "/var/Foo.app/Sub/X.bin") ∧
      isAfterFirstMarker "/var/Foo.app/Sub/X.bin"
        (relAfterMarker "/var/Foo.app/Sub/X.bin")) :=
  ⟨by decide, by decide,
    dump_message_records_relative_path (fun _ => true) (fun _ => []) ⟨[], [], false⟩
      [("dump", "/tmp/X.bin"), ("path", "/var/Foo.app/Sub/X.bin")]
      "/tmp/X.bin" "/var/Foo.app/Sub/X.bin" (by decide) (by decide) rfl (by decide)⟩

/-! ### Claim C1 — assembly reconstructs the bundle layout and archives it -/

/-- Splitting a string on slashes always yields at least one component. -/
lemma splitSlashAux_ne_nil : ∀ (cs acc : List Char), splitSlashAux cs acc ≠ [] := by
  intro cs
  induction cs with
  | nil => intro acc; simp [splitSlashAux]
  | cons c rest ih =>
    intro acc
    unfold splitSlashAux
    by_cases h : (c == '/') = true
    · rw [if_pos h]; simp
    · rw [if_neg h]; exact ih _

/-- A move target always has the bundle root plus at least one further
component. -/
lemma moveTarget_length (appName v : String) : 2 ≤ (moveTarget appName v).length := by
  unfold moveTarget splitSlash
  cases h : splitSlashAux v.data [] with
  | nil => exact absurd h (splitSlashAux_ne_nil v.data [])
  | cons a t => simp [h]

/-- `moveFun` leaves any path of two or more components unchanged. -/
lemma moveFun_long (d : List (String × String)) (appName : String) (p : List String)
    (h : 2 ≤ p.length) : moveFun d appName p = p := by
  rcases p with _ | ⟨x, _ | ⟨y, t⟩⟩
  · simp at h
  · simp at h
  · rfl

/-- With an empty mapping, the move phase is the identity (per file). -/
lemma moveFun_nil (appName : String) (p : List String) : moveFun [] appName p = p := by
  rcases p with _ | ⟨x, _ | ⟨y, t⟩⟩
  · rfl
  · simp only [moveFun]
    by_cases h : x = "app"
    · rw [if_pos h]
    · rw [if_neg h]
      rfl
  · rfl

/-- With an empty mapping, the move phase is the identity. -/
lemma movedSpec_nil (appName : String) : ∀ fs, movedSpec [] appName fs = fs := by
  intro fs
  induction fs with
  | nil => rfl
  | cons p rest ih =>
    simp only [movedSpec, List.map_cons] at ih ⊢
    rw [moveFun_nil, ih]

/-- The reserved `app` binding contributes no move (per file). -/
lemma moveFun_cons_app (v appName : String) (d : List (String × String))
    (p : List String) :
    moveFun (("app", v) :: d) appName p = moveFun d appName p := by
  rcases p with _ | ⟨x, _ | ⟨y, t⟩⟩
  · rfl
  · simp only [moveFun]
    by_cases h : x = "app"
    · rw [if_pos h, if_pos h]
    · rw [if_neg h, if_neg h]
      have hl : lookupStr (("app", v) :: d) x = lookupStr d x := by
        rw [lookupStr, if_neg (fun hh => h hh.symm)]
      rw [hl]
  · rfl

/-- The reserved `app` binding contributes no move. -/
lemma movedSpec_cons_app (v appName : String) (d : List (String × String)) :
    ∀ fs, movedSpec (("app", v) :: d) appName fs = movedSpec d appName fs := by
  intro fs
  induction fs with
  | nil => rfl
  | cons p rest ih =>
    simp only [movedSpec, List.map_cons] at ih ⊢
    rw [moveFun_cons_app, ih]

/-- Performing the head binding's move first and then the rest of the
mapping agrees with the one-pass description (per file). -/
lemma moveFun_step (appName k v : String) (rest : List (String × String))
    (hk : k ≠ "app") (p : List String) :
    moveFun ((k, v) :: rest) appName p
      = moveFun rest appName (if p = [k] then moveTarget appName v else p) := by
  by_cases hp : p = [k]
  · subst hp
    rw [if_pos rfl]
    simp only [moveFun]
    rw [if_neg hk]
    have hl : lookupStr ((k, v) :: rest) k = some v := by
      rw [lookupStr, if_pos rfl]
    rw [hl]
    exact (moveFun_long rest appName _ (moveTarget_length appName v)).symm
  · rw [if_neg hp]
    rcases p with _ | ⟨x, _ | ⟨y, t⟩⟩
    · rfl
    · have hxk : ¬(x = k) := fun hh => hp (by rw [hh])
      simp only [moveFun]
      by_cases hx : x = "app"
      · rw [if_pos hx, if_pos hx]
      · rw [if_neg hx, if_neg hx]
        have hl : lookupStr ((k, v) :: rest) x = lookupStr rest x := by
          rw [lookupStr, if_neg (fun hh => hxk hh.symm)]
        rw [hl]
    · rfl

/-- Performing the head binding's move first and then the rest of the
mapping agrees with the one-pass description. -/
lemma movedSpec_step (appName k v : String) (rest : List (String × String))
    (hk : k ≠ "app") :
    ∀ fs, movedSpec ((k, v) :: rest) appName fs
      = movedSpec rest appName
          (fs.map (fun p => if p = [k] then moveTarget appName v else p)) := by
  intro fs
  induction fs with
  | nil => rfl
  | cons p rest' ih =>
    simp only [movedSpec, List.map_cons] at ih ⊢
    rw [moveFun_step appName k v rest hk p, ih]

/-- The sequential move loop of `generate_ipa` (lines 235-239) computes
exactly the claim-side one-pass layout, provided the mapping's keys are
distinct and every non-reserved key is staged as a top-level file. -/
lemma moveEntries_eq_movedSpec (appName : String) :
    ∀ (entries : List (String × String)) (fs : List (List String)),
      (entries.map Prod.fst).Nodup →
      (∀ kv ∈ entries, kv.1 ≠ "app" → [kv.1] ∈ fs) →
      moveEntries appName entries fs = Except.ok (movedSpec entries appName fs) := by
  intro entries
  induction entries with
  | nil =>
    intro fs _ _
    rw [movedSpec_nil]
    rfl
  | cons e rest ih =>
    intro fs hnd hstaged
    obtain ⟨k, v⟩ := e
    simp only [List.map_cons] at hnd
    by_cases hk : k = "app"
    · subst hk
      have hnd' : (rest.map Prod.fst).Nodup := hnd.of_cons
      have hstaged' : ∀ kv ∈ rest, kv.1 ≠ "app" → [kv.1] ∈ fs :=
        fun kv hkv => hstaged kv (List.mem_cons_of_mem _ hkv)
      rw [movedSpec_cons_app]
      rw [← ih fs hnd' hstaged']
      simp [moveEntries]
    · have hkfs : [k] ∈ fs := hstaged (k, v) (List.mem_cons_self _ _) hk
      have hcont : fs.contains [k] = true := List.elem_eq_true_of_mem hkfs
      have hnd' : (rest.map Prod.fst).Nodup := hnd.of_cons
      have hknotin : k ∉ rest.map Prod.fst := (List.nodup_cons.mp hnd).1
      have hstaged' : ∀ kv ∈ rest, kv.1 ≠ "app" →
          [kv.1] ∈ fs.map (fun p => if p = [k] then moveTarget appName v else p) := by
        intro kv hkv hne
        have hmem := hstaged kv (List.mem_cons_of_mem _ hkv) hne
        have hkvk : kv.1 ≠ k := by
          intro hh
          exact hknotin (hh ▸ List.mem_map_of_mem Prod.fst hkv)
        refine List.mem_map.mpr ⟨[kv.1], hmem, ?_⟩
        rw [if_neg (by simp [hkvk])]
      rw [movedSpec_step appName k v rest hk]
      rw [← ih _ hnd' hstaged']
      simp only [moveEntries, if_neg hk]
      rw [if_pos hcont]

/-- Successful assembly, characterised: with the reserved `app` entry
present and truthy, distinct keys, every non-reserved artifact staged,
and the resulting bundle root a directory, `generate_ipa` relocates each
artifact to `bundleRoot/<relativePath>`, writes the archive named
`<displayName>.ipa` whose entries are exactly the files under the bundle
root with paths relative to the staging root's parent, and leaves the
cleaned staging contents. -/
lemma generate_ipa_spec (displayName appName : String)
    (fileDict : List (String × String)) (fs : List (List String))
    (happ : lookupStr fileDict "app" = some appName)
    (hne : appName ≠ "")
    (hnd : (fileDict.map Prod.fst).Nodup)
    (hstaged : ∀ kv ∈ fileDict, kv.1 ≠ "app" → [kv.1] ∈ fs)
    (hdir : isDirIn (movedSpec fileDict appName fs) appName = true) :
    generate_ipa displayName fileDict fs =
      { archiveName := some (displayName ++ ".ipa"),
        archive := some (zipEntries (movedSpec fileDict appName fs) appName),
        fs := cleanupStaging (movedSpec fileDict appName fs),
        errorLogged := false } := by
  unfold generate_ipa
  simp only [happ]
  rw [if_neg hne]
  rw [moveEntries_eq_movedSpec appName fileDict fs hnd hstaged]
  simp [hdir]

/-- Claim C1: with the reserved `app` entry naming the bundle root,
`generate_ipa` moves each non-reserved mapping entry's staged artifact
from the staging root to `bundleRoot/<relativePath>` (the one-pass
`movedSpec` layout), and writes a compressed archive at
`outputDir/<displayName>.ipa` whose entries are exactly the files under
the bundle root, each with its path relative to the staging root's
parent directory (the `Payload`-prefixed `zipEntries`). -/
theorem generate_ipa_assembles_bundle (displayName appName : String)
    (fileDict : List (String × String)) (fs : List (List String))
    (happ : lookupStr fileDict "app" = some appName)
    (hne : appName ≠ "")
    (hnd : (fileDict.map Prod.fst).Nodup)
    (hstaged : ∀ kv ∈ fileDict, kv.1 ≠ "app" → [kv.1] ∈ fs)
    (hdir : isDirIn (movedSpec fileDict appName fs) appName = true) :
    generate_ipa displayName fileDict fs =
      { archiveName := some (displayName ++ ".ipa"),
        archive := some (zipEntries (movedSpec fileDict appName fs) appName),
        fs := cleanupStaging (movedSpec fileDict appName fs),
        errorLogged := false } :=
  generate_ipa_spec displayName appName fileDict fs happ hne hnd hstaged hdir

/-- Witness for claim C1 at a concrete mapping and staging directory. -/
theorem generate_ipa_assembles_bundle_witness :
    lookupStr [("app", "Foo.app"), ("X.bin", "Sub/X.bin")] "app" = some "Foo.app" ∧
    isDirIn (movedSpec [("app", "Foo.app"), ("X.bin", "Sub/X.bin")] "Foo.app"
        [["X.bin"], ["Foo.app", "Info.plist"]]) "Foo.app" = true ∧
    generate_ipa "Foo" [("app", "Foo.app"), ("X.bin", "Sub/X.bin")]
        [["X.bin"], ["Foo.app", "Info.plist"]]
      = { archiveName := some ("Foo" ++ ".ipa"),
          archive := some (zipEntries
            (movedSpec [("app", "Foo.app"), ("X.bin", "Sub/X.bin")] "Foo.app"
              [["X.bin"], ["Foo.app", "Info.plist"]]) "Foo.app"),
          fs := cleanupStaging
            (movedSpec [("app", "Foo.app"), ("X.bin", "Sub/X.bin")] "Foo.app"
              [["X.bin"], ["Foo.app", "Info.plist"]]),
          errorLogged := false } :=
  ⟨by decide, by decide,
    generate_ipa_assembles_bundle "Foo" "Foo.app"
      [("app", "Foo.app"), ("X.bin", "Sub/X.bin")]
      [["X.bin"], ["Foo.app", "Info.plist"]]
      (by decide) (by decide) (by decide) (by decide) (by decide)⟩

/-! ### Claim C2 — a failed transfer degrades gracefully -/

/-- A successful lookup implies key presence. -/
lemma hasKey_of_lookup (k v : String) :
    ∀ pl : List (String × String), lookupStr pl k = some v → hasKey pl k = true := by
  intro pl
  induction pl with
  | nil => intro h; exact absurd h (by simp [lookupStr])
  | cons p rest ih =>
    intro h
    rw [lookupStr] at h
    by_cases hp : p.1 = k
    · simp [hasKey, hp]
    · rw [if_neg hp] at h
      have := ih h
      simp only [hasKey, List.any_cons] at this ⊢
      rw [this, Bool.or_true]

/-- Key presence implies a successful lookup. -/
lemma lookup_of_hasKey (k : String) :
    ∀ pl : List (String × String), hasKey pl k = true →
      ∃ v, lookupStr pl k = some v := by
  intro pl
  induction pl with
  | nil => intro h; simp [hasKey] at h
  | cons p rest ih =>
    intro h
    by_cases hp : p.1 = k
    · exact ⟨p.2, by rw [lookupStr, if_pos hp]⟩
    · have hr : hasKey rest k = true := by
        simpa [hasKey, hp] using h
      obtain ⟨v, hv⟩ := ih hr
      exact ⟨v, by rw [lookupStr, if_neg hp]; exact hv⟩

/-- Processing the failing dump message: the transfer is issued, fails,
is caught and logged inside the handler, and the state is left intact —
whatever the state was. -/
lemma on_message_failing_dump (r : String) (tree : String → List (List String))
    (mr : FridaMessage) (plr : List (String × String))
    (hmr1 : mr.mtype ≠ some "error")
    (hmr2 : mr.payload = some plr)
    (hmr3 : plr ≠ [])
    (hmr4 : lookupStr plr "type" ≠ some "log")
    (hmr5 : lookupStr plr "dump" = some r) :
    ∀ s : RouterState,
      on_message (fun x => !(x == r)) tree s mr = (s, [HOp.scpGetFile r, HOp.logError]) := by
  intro s
  unfold on_message
  rw [if_neg hmr1]
  simp only [hmr2]
  rw [if_neg hmr3, if_neg hmr4, if_pos (hasKey_of_lookup "dump" r plr hmr5)]
  rw [effDumpHandler_eq]
  show handleDumpPayloadV2 (fun x => !(x == r)) s plr = _
  unfold handleDumpPayloadV2
  simp only [hmr5]
  simp

/-- A message that never references the failing artifact is processed
identically under the failing oracle and the all-success oracle. -/
lemma on_message_oracle_agnostic (r bn : String) (tree : String → List (List String))
    (m : FridaMessage) (h : avoidsArtifact r bn m = true) (s : RouterState) :
    on_message (fun x => !(x == r)) tree s m = on_message (fun _ => true) tree s m := by
  unfold on_message
  by_cases h1 : m.mtype = some "error"
  · rw [if_pos h1, if_pos h1]
  · rw [if_neg h1, if_neg h1]
    cases hp : m.payload with
    | none => rfl
    | some pl =>
      unfold avoidsArtifact at h
      rw [hp] at h
      rw [Bool.and_eq_true] at h
      obtain ⟨happ, hdump⟩ := h
      dsimp only
      by_cases h2 : pl = []
      · rw [if_pos h2, if_pos h2]
      · rw [if_neg h2, if_neg h2]
        by_cases h3 : lookupStr pl "type" = some "log"
        · rw [if_pos h3, if_pos h3]
        · rw [if_neg h3, if_neg h3]
          by_cases h4 : hasKey pl "dump" = true
          · rw [if_pos h4, if_pos h4]
            rw [effDumpHandler_eq]
            show handleDumpPayloadV2 _ s pl = handleDumpPayloadV2 _ s pl
            obtain ⟨r', hr'⟩ := lookup_of_hasKey "dump" pl h4
            unfold handleDumpPayloadV2
            simp only [hr']
            rw [hr'] at hdump
            rw [Bool.and_eq_true] at hdump
            have : (r' == r) = false := by
              rcases hdump with ⟨hne, _⟩
              simpa using hne
            rw [this]
            simp
          · rw [if_neg h4, if_neg h4]
            by_cases h5 : hasKey pl "app" = true
            · rw [if_pos h5, if_pos h5]
              rw [effAppHandler_eq]
              show handleAppPayloadV2 _ tree s pl = handleAppPayloadV2 _ tree s pl
              obtain ⟨a, ha⟩ := lookup_of_hasKey "app" pl h5
              unfold handleAppPayloadV2
              simp only [ha]
              rw [ha] at happ
              have hane : (a == r) = false := by simpa using happ
              simp [hane]
            · rw [if_neg h5, if_neg h5]

/-- Folding the router over an appended stream. -/
lemma runMessages_append (fok : String → Bool) (tree : String → List (List String)) :
    ∀ (l1 l2 : List FridaMessage) (st : RouterState),
      runMessages fok tree st (l1 ++ l2)
        = runMessages fok tree (runMessages fok tree st l1) l2 := by
  intro l1
  induction l1 with
  | nil => intro l2 st; rfl
  | cons m rest ih =>
    intro l2 st
    rw [List.cons_append, runMessages, runMessages, ih]

/-- A stream that never references the failing artifact is processed
identically under the failing oracle and the all-success oracle. -/
lemma runMessages_oracle_agnostic (r bn : String) (tree : String → List (List String)) :
    ∀ (msgs : List FridaMessage) (st : RouterState),
      (∀ m ∈ msgs, avoidsArtifact r bn m = true) →
      runMessages (fun x => !(x == r)) tree st msgs
        = runMessages (fun _ => true) tree st msgs := by
  intro msgs
  induction msgs with
  | nil => intro st _; rfl
  | cons m rest ih =>
    intro st h
    rw [runMessages, runMessages]
    rw [on_message_oracle_agnostic r bn tree m (h m (List.mem_cons_self _ _)) st]
    exact ih _ (fun m' hm' => h m' (List.mem_cons_of_mem _ hm'))

/-- The run in which one artifact's transfer fails ends in exactly the
state of the all-success run on the stream with that artifact's message
removed: the failure is absorbed and every other message still takes
effect. -/
lemma runMessages_fail_eq_drop (r bn : String) (tree : String → List (List String))
    (pre post : List FridaMessage) (mr : FridaMessage) (plr : List (String × String))
    (st0 : RouterState)
    (hmr1 : mr.mtype ≠ some "error")
    (hmr2 : mr.payload = some plr)
    (hmr3 : plr ≠ [])
    (hmr4 : lookupStr plr "type" ≠ some "log")
    (hmr5 : lookupStr plr "dump" = some r)
    (havoid : ∀ m ∈ pre ++ post, avoidsArtifact r bn m = true) :
    runMessages (fun x => !(x == r)) tree st0 (pre ++ mr :: post)
      = runMessages (fun _ => true) tree st0 (pre ++ post) := by
  have hpre : ∀ m ∈ pre, avoidsArtifact r bn m = true :=
    fun m hm => havoid m (List.mem_append.mpr (Or.inl hm))
  have hpost : ∀ m ∈ post, avoidsArtifact r bn m = true :=
    fun m hm => havoid m (List.mem_append.mpr (Or.inr hm))
  rw [runMessages_append, runMessages_append]
  rw [runMessages_oracle_agnostic r bn tree pre st0 hpre]
  rw [runMessages]
  rw [on_message_failing_dump r tree mr plr hmr1 hmr2 hmr3 hmr4 hmr5]
  exact runMessages_oracle_agnostic r bn tree post _ hpost

/-- Absent keys make `hasKey` false. -/
lemma hasKey_eq_false_of_not_mem (d : List (String × String)) (k : String)
    (h : k ∉ d.map Prod.fst) : hasKey d k = false := by
  rw [hasKey, List.any_eq_false]
  intro p hp
  have hne : p.1 ≠ k := fun hh => h (hh ▸ List.mem_map_of_mem Prod.fst hp)
  simpa using hne

/-- Key presence is unaffected by a middle binding with a different key. -/
lemma hasKey_middle (d1 d2 : List (String × String)) (bn rel k : String)
    (hk : k ≠ bn) :
    hasKey (d1 ++ (bn, rel) :: d2) k = hasKey (d1 ++ d2) k := by
  simp only [hasKey, List.any_append, List.any_cons]
  have hb : (bn == k) = false := by
    simpa using fun hh : bn = k => hk hh.symm
  rw [hb, Bool.false_or]

/-- Lookup of a different key skips a middle binding. -/
lemma lookupStr_middle_ne (bn rel k : String) (hk : k ≠ bn) :
    ∀ d1 d2, lookupStr (d1 ++ (bn, rel) :: d2) k = lookupStr (d1 ++ d2) k := by
  intro d1
  induction d1 with
  | nil =>
    intro d2
    show lookupStr ((bn, rel) :: d2) k = lookupStr d2 k
    rw [lookupStr, if_neg (fun hh => hk hh.symm)]
  | cons p rest ih =>
    intro d2
    simp only [List.cons_append, lookupStr]
    by_cases hp : p.1 = k
    · rw [if_pos hp, if_pos hp]
    · rw [if_neg hp, if_neg hp]
      exact ih d2

/-- Lookup of the middle binding's key finds it when no earlier binding
shadows it. -/
lemma lookupStr_middle_self (bn rel : String) :
    ∀ d1 d2, bn ∉ d1.map Prod.fst →
      lookupStr (d1 ++ (bn, rel) :: d2) bn = some rel := by
  intro d1
  induction d1 with
  | nil =>
    intro d2 _
    rw [List.nil_append, lookupStr, if_pos rfl]
  | cons p rest ih =>
    intro d2 h
    simp only [List.map_cons, List.mem_cons] at h
    push_neg at h
    obtain ⟨h1, h2⟩ := h
    simp only [List.cons_append, lookupStr]
    rw [if_neg (fun hh => h1 hh.symm)]
    exact ih d2 h2

/-- A value update leaves the key sequence of a dict unchanged. -/
lemma keys_map_update (k v : String) (l : List (String × String)) :
    (l.map (fun p => if p.1 = k then (p.1, v) else p)).map Prod.fst
      = l.map Prod.fst := by
  rw [List.map_map]
  apply List.map_congr_left
  intro p _
  by_cases hp : p.1 = k
  · simp [Function.comp, hp]
  · simp [Function.comp, hp]

/-- A dict assignment with any key other than `bn` preserves the shape
"`(bn, rel)` inserted in the middle" and the freshness of `bn`. -/
lemma dictInsert_middle (bn rel k v : String) (hk : k ≠ bn)
    (d1 d2 : List (String × String)) (hfresh : bn ∉ (d1 ++ d2).map Prod.fst) :
    ∃ e1 e2, dictInsert (d1 ++ (bn, rel) :: d2) k v = e1 ++ (bn, rel) :: e2 ∧
      dictInsert (d1 ++ d2) k v = e1 ++ e2 ∧ bn ∉ (e1 ++ e2).map Prod.fst := by
  unfold dictInsert
  rw [hasKey_middle d1 d2 bn rel k hk]
  by_cases h : hasKey (d1 ++ d2) k = true
  · rw [if_pos h, if_pos h]
    refine ⟨d1.map (fun p => if p.1 = k then (p.1, v) else p),
           d2.map (fun p => if p.1 = k then (p.1, v) else p), ?_, ?_, ?_⟩
    · rw [List.map_append, List.map_cons]
      have hbn : (if ((bn, rel) : String × String).1 = k then ((bn, rel).1, v) else (bn, rel))
          = (bn, rel) := by
        rw [if_neg (fun hh => hk hh.symm)]
      rw [hbn]
    · rw [List.map_append]
    · rw [← List.map_append, keys_map_update]
      exact hfresh
  · rw [if_neg h, if_neg h]
    refine ⟨d1, d2 ++ [(k, v)], ?_, ?_, ?_⟩
    · rw [List.append_assoc]
      rfl
    · rw [List.append_assoc]
    · intro hmem
      rw [← List.append_assoc] at hmem
      rw [List.map_append, List.mem_append] at hmem
      rcases hmem with hmem | hmem
      · exact hfresh hmem
      · simp only [List.map_cons, List.map_nil, List.mem_singleton] at hmem
        exact hk hmem.symm

/-- Staging a file with basename other than `bn` preserves the shape
"`[bn]` inserted in the middle" and the freshness of `bn`. -/
lemma stageFile_middle (bn b : String) (hb : b ≠ bn) (f1 f2 : List (List String))
    (hfresh : [bn] ∉ f1 ++ f2) :
    ∃ g1 g2, stageFile (f1 ++ [bn] :: f2) b = g1 ++ [bn] :: g2 ∧
      stageFile (f1 ++ f2) b = g1 ++ g2 ∧ [bn] ∉ g1 ++ g2 := by
  unfold stageFile
  by_cases hm : [b] ∈ f1 ++ f2
  · have hm' : [b] ∈ f1 ++ [bn] :: f2 := by
      rcases List.mem_append.mp hm with h | h
      · exact List.mem_append.mpr (Or.inl h)
      · exact List.mem_append.mpr (Or.inr (List.mem_cons_of_mem _ h))
    rw [if_pos (List.elem_eq_true_of_mem hm'), if_pos (List.elem_eq_true_of_mem hm)]
    exact ⟨f1, f2, rfl, rfl, hfresh⟩
  · have hm' : [b] ∉ f1 ++ [bn] :: f2 := by
      intro hmem
      rcases List.mem_append.mp hmem with h | h
      · exact hm (List.mem_append.mpr (Or.inl h))
      · rcases List.mem_cons.mp h with h | h
        · exact hb (by simpa using h)
        · exact hm (List.mem_append.mpr (Or.inr h))
    rw [if_neg (fun hc => hm' (List.mem_of_elem_eq_true hc)),
        if_neg (fun hc => hm (List.mem_of_elem_eq_true hc))]
    refine ⟨f1, f2 ++ [[b]], ?_, ?_, ?_⟩
    · rw [List.append_assoc]
      rfl
    · rw [List.append_assoc]
    · intro hmem
      rw [← List.append_assoc] at hmem
      rw [List.mem_append] at hmem
      rcases hmem with hmem | hmem
      · exact hfresh hmem
      · simp only [List.mem_singleton] at hmem
        have : bn = b := by simpa using hmem
        exact hb this.symm

/-- A successful dump transfer whose basename differs from `bn` preserves
the one-extra-artifact relationship between the two runs. -/
lemma handleDumpPayloadV2_preserves_diff (bn rel : String)
    (pl : List (String × String))
    (hdump : ∀ r', lookupStr pl "dump" = some r' → pathName r' ≠ bn)
    (sF sD : RouterState) (h : DiffInv bn rel sF sD) :
    DiffInv bn rel (handleDumpPayloadV2 (fun _ => true) sF pl).1
      (handleDumpPayloadV2 (fun _ => true) sD pl).1 := by
  obtain ⟨⟨d1, d2, hdF, hdD, hdfresh⟩, ⟨f1, f2, hfF, hfD, hffresh⟩, hfin⟩ := h
  unfold handleDumpPayloadV2
  cases hr : lookupStr pl "dump" with
  | none => exact ⟨⟨d1, d2, hdF, hdD, hdfresh⟩, ⟨f1, f2, hfF, hfD, hffresh⟩, hfin⟩
  | some r' =>
    have hbne : pathName r' ≠ bn := hdump r' hr
    dsimp only
    obtain ⟨g1, g2, hg1, hg2, hgfresh⟩ :=
      stageFile_middle bn (pathName r') hbne f1 f2 hffresh
    cases hpath : lookupStr pl "path" with
    | none =>
      refine ⟨⟨d1, d2, hdF, hdD, hdfresh⟩, ⟨g1, g2, ?_, ?_, hgfresh⟩, hfin⟩
      · show stageFile sF.fs (pathName r') = _
        rw [hfF]
        exact hg1
      · show stageFile sD.fs (pathName r') = _
        rw [hfD]
        exact hg2
    | some origPath =>
      obtain ⟨e1, e2, he1, he2, hefresh⟩ :=
        dictInsert_middle bn rel (pathName r') (relAfterMarker origPath) hbne d1 d2 hdfresh
      refine ⟨⟨e1, e2, ?_, ?_, hefresh⟩, ⟨g1, g2, ?_, ?_, hgfresh⟩, hfin⟩
      · show dictInsert sF.fileDict (pathName r') (relAfterMarker origPath) = _
        rw [hdF]
        exact he1
      · show dictInsert sD.fileDict (pathName r') (relAfterMarker origPath) = _
        rw [hdD]
        exact he2
      · show stageFile sF.fs (pathName r') = _
        rw [hfF]
        exact hg1
      · show stageFile sD.fs (pathName r') = _
        rw [hfD]
        exact hg2

/-- A successful bundle-root transfer preserves the one-extra-artifact
relationship (its reserved key is not the artifact's basename, and the
fetched tree holds no top-level file). -/
lemma handleAppPayloadV2_preserves_diff (bn rel : String) (hbn : bn ≠ "app")
    (tree : String → List (List String))
    (htree : ∀ s, ∀ p ∈ tree s, 2 ≤ p.length)
    (pl : List (String × String))
    (sF sD : RouterState) (h : DiffInv bn rel sF sD) :
    DiffInv bn rel (handleAppPayloadV2 (fun _ => true) tree sF pl).1
      (handleAppPayloadV2 (fun _ => true) tree sD pl).1 := by
  obtain ⟨⟨d1, d2, hdF, hdD, hdfresh⟩, ⟨f1, f2, hfF, hfD, hffresh⟩, hfin⟩ := h
  unfold handleAppPayloadV2
  cases ha : lookupStr pl "app" with
  | none => exact ⟨⟨d1, d2, hdF, hdD, hdfresh⟩, ⟨f1, f2, hfF, hfD, hffresh⟩, hfin⟩
  | some a =>
    dsimp only
    obtain ⟨e1, e2, he1, he2, hefresh⟩ :=
      dictInsert_middle bn rel "app" (pathName a) (Ne.symm hbn) d1 d2 hdfresh
    refine ⟨⟨e1, e2, ?_, ?_, hefresh⟩, ⟨f1, f2 ++ tree a, ?_, ?_, ?_⟩, hfin⟩
    · show dictInsert sF.fileDict "app" (pathName a) = _
      rw [hdF]
      exact he1
    · show dictInsert sD.fileDict "app" (pathName a) = _
      rw [hdD]
      exact he2
    · show sF.fs ++ tree a = _
      rw [hfF, List.append_assoc]
      rfl
    · show sD.fs ++ tree a = _
      rw [hfD, List.append_assoc]
    · intro hmem
      rw [← List.append_assoc, List.mem_append] at hmem
      rcases hmem with hmem | hmem
      · exact hffresh hmem
      · simpa using htree a [bn] hmem

/-- One router step on a message that never references the failing
artifact preserves the one-extra-artifact relationship. -/
lemma on_message_preserves_diff (bn rel r : String) (hbn : bn ≠ "app")
    (tree : String → List (List String))
    (htree : ∀ s, ∀ p ∈ tree s, 2 ≤ p.length)
    (m : FridaMessage) (hm : avoidsArtifact r bn m = true)
    (sF sD : RouterState) (h : DiffInv bn rel sF sD) :
    DiffInv bn rel (on_message (fun _ => true) tree sF m).1
      (on_message (fun _ => true) tree sD m).1 := by
  unfold on_message
  by_cases h1 : m.mtype = some "error"
  · rw [if_pos h1, if_pos h1]
    exact h
  · rw [if_neg h1, if_neg h1]
    cases hp : m.payload with
    | none => exact h
    | some pl =>
      unfold avoidsArtifact at hm
      rw [hp] at hm
      rw [Bool.and_eq_true] at hm
      obtain ⟨hmapp, hmdump⟩ := hm
      dsimp only
      by_cases h2 : pl = []
      · rw [if_pos h2, if_pos h2]
        exact h
      · rw [if_neg h2, if_neg h2]
        by_cases h3 : lookupStr pl "type" = some "log"
        · rw [if_pos h3, if_pos h3]
          exact h
        · rw [if_neg h3, if_neg h3]
          by_cases h4 : hasKey pl "dump" = true
          · rw [if_pos h4, if_pos h4]
            rw [effDumpHandler_eq]
            refine handleDumpPayloadV2_preserves_diff bn rel pl ?_ sF sD h
            intro r' hr'
            simp only [hr'] at hmdump
            rw [Bool.and_eq_true] at hmdump
            simpa using hmdump.2
          · rw [if_neg h4, if_neg h4]
            by_cases h5 : hasKey pl "app" = true
            · rw [if_pos h5, if_pos h5]
              rw [effAppHandler_eq]
              exact handleAppPayloadV2_preserves_diff bn rel hbn tree htree pl sF sD h
            · rw [if_neg h5, if_neg h5]
              by_cases h6 : hasKey pl "done" = true
              · rw [if_pos h6, if_pos h6]
                obtain ⟨hd, hf, _⟩ := h
                exact ⟨hd, hf, rfl⟩
              · rw [if_neg h6, if_neg h6]
                exact h

/-- The one-extra-artifact relationship is preserved across a whole
stream of artifact-avoiding messages. -/
lemma runMessages_preserves_diff (bn rel r : String) (hbn : bn ≠ "app")
    (tree : String → List (List String))
    (htree : ∀ s, ∀ p ∈ tree s, 2 ≤ p.length) :
    ∀ (post : List FridaMessage) (sF sD : RouterState),
      (∀ m ∈ post, avoidsArtifact r bn m = true) →
      DiffInv bn rel sF sD →
      DiffInv bn rel (runMessages (fun _ => true) tree sF post)
        (runMessages (fun _ => true) tree sD post) := by
  intro post
  induction post with
  | nil => intro sF sD _ h; exact h
  | cons m rest ih =>
    intro sF sD hav h
    rw [runMessages, runMessages]
    exact ih _ _ (fun m' hm' => hav m' (List.mem_cons_of_mem _ hm'))
      (on_message_preserves_diff bn rel r hbn tree htree m
        (hav m (List.mem_cons_self _ _)) sF sD h)

/-- Processing the failing artifact's message in the all-success run
establishes the one-extra-artifact relationship with the state that did
not see the message at all. -/
lemma on_message_establishes_diff (r origPath : String)
    (tree : String → List (List String)) (mr : FridaMessage)
    (plr : List (String × String))
    (hmr1 : mr.mtype ≠ some "error")
    (hmr2 : mr.payload = some plr)
    (hmr3 : plr ≠ [])
    (hmr4 : lookupStr plr "type" ≠ some "log")
    (hmr5 : lookupStr plr "dump" = some r)
    (hmr6 : lookupStr plr "path" = some origPath)
    (sP : RouterState)
    (hfreshfs : [pathName r] ∉ sP.fs)
    (hfreshdict : pathName r ∉ sP.fileDict.map Prod.fst) :
    DiffInv (pathName r) (relAfterMarker origPath)
      (on_message (fun _ => true) tree sP mr).1 sP := by
  unfold on_message
  rw [if_neg hmr1]
  simp only [hmr2]
  rw [if_neg hmr3, if_neg hmr4, if_pos (hasKey_of_lookup "dump" r plr hmr5)]
  rw [effDumpHandler_eq]
  show DiffInv _ _ (handleDumpPayloadV2 (fun _ => true) sP plr).1 sP
  unfold handleDumpPayloadV2
  simp only [hmr5, hmr6]
  refine ⟨⟨sP.fileDict, [], ?_, ?_, ?_⟩, ⟨sP.fs, [], ?_, ?_, ?_⟩, rfl⟩
  · show dictInsert sP.fileDict (pathName r) (relAfterMarker origPath) = _
    unfold dictInsert
    rw [hasKey_eq_false_of_not_mem sP.fileDict (pathName r) hfreshdict]
    simp
  · rw [List.append_nil]
  · rw [List.append_nil]
    exact hfreshdict
  · show stageFile sP.fs (pathName r) = _
    unfold stageFile
    rw [if_neg (fun hc => hfreshfs (List.mem_of_elem_eq_true hc))]
  · rw [List.append_nil]
  · rw [List.append_nil]
    exact hfreshfs

/-- The move phase treats any file other than `[bn]` the same whether or
not the dict carries the middle binding `(bn, rel)`. -/
lemma moveFun_middle_ne (bn rel appName : String) (d1 d2 : List (String × String))
    (p : List String) (hp : p ≠ [bn]) :
    moveFun (d1 ++ (bn, rel) :: d2) appName p = moveFun (d1 ++ d2) appName p := by
  rcases p with _ | ⟨x, _ | ⟨y, t⟩⟩
  · rfl
  · have hx : x ≠ bn := fun hh => hp (by rw [hh])
    simp only [moveFun]
    by_cases ha : x = "app"
    · rw [if_pos ha, if_pos ha]
    · rw [if_neg ha, if_neg ha, lookupStr_middle_ne bn rel x hx d1 d2]
  · rfl

/-- The moved layout of the full run splits as the moved layout of the
degraded run with the failed artifact's target inserted in the middle. -/
lemma movedSpec_middle (bn rel appName : String) (hbn : bn ≠ "app")
    (d1 d2 : List (String × String)) (hd1 : bn ∉ d1.map Prod.fst)
    (f1 f2 : List (List String)) (hf : [bn] ∉ f1 ++ f2) :
    movedSpec (d1 ++ (bn, rel) :: d2) appName (f1 ++ [bn] :: f2)
      = movedSpec (d1 ++ d2) appName f1
        ++ moveTarget appName rel :: movedSpec (d1 ++ d2) appName f2 := by
  unfold movedSpec
  rw [List.map_append, List.map_cons]
  have h1 : List.map (moveFun (d1 ++ (bn, rel) :: d2) appName) f1
      = List.map (moveFun (d1 ++ d2) appName) f1 := by
    apply List.map_congr_left
    intro p hp
    exact moveFun_middle_ne bn rel appName d1 d2 p
      (fun hh => hf (hh ▸ List.mem_append.mpr (Or.inl hp)))
  have h2 : List.map (moveFun (d1 ++ (bn, rel) :: d2) appName) f2
      = List.map (moveFun (d1 ++ d2) appName) f2 := by
    apply List.map_congr_left
    intro p hp
    exact moveFun_middle_ne bn rel appName d1 d2 p
      (fun hh => hf (hh ▸ List.mem_append.mpr (Or.inr hp)))
  have h3 : moveFun (d1 ++ (bn, rel) :: d2) appName [bn] = moveTarget appName rel := by
    simp only [moveFun]
    rw [if_neg hbn, lookupStr_middle_self bn rel d1 d2 hd1]
  rw [h1, h2, h3]

/-- Inserting a file of the bundle root in the middle of the layout
keeps the bundle root a directory. -/
lemma isDirIn_middle (appName : String) (e : List String) (he : 2 ≤ e.length)
    (hehead : (e.headI == appName) = true) (A B : List (List String))
    (h : isDirIn (A ++ B) appName = true) : isDirIn (A ++ e :: B) appName = true := by
  unfold isDirIn at h ⊢
  rw [Bool.and_eq_true] at h
  obtain ⟨_, hnc⟩ := h
  rw [Bool.and_eq_true]
  constructor
  · rw [List.any_append, List.any_cons]
    have : (e.headI == appName && decide (2 ≤ e.length)) = true := by
      rw [hehead, Bool.true_and, decide_eq_true he]
    rw [this]
    simp
  · rw [Bool.not_eq_true'] at hnc ⊢
    have hmem : [appName] ∉ A ++ B := by
      intro hm
      have hc : (A ++ B).contains [appName] = true := List.elem_eq_true_of_mem hm
      rw [hc] at hnc
      exact absurd hnc (by simp)
    have hne : e ≠ [appName] := by
      intro hh
      rw [hh] at he
      simp at he
    have hnm : [appName] ∉ A ++ e :: B := by
      intro hm
      rcases List.mem_append.mp hm with hm | hm
      · exact hmem (List.mem_append.mpr (Or.inl hm))
      · rcases List.mem_cons.mp hm with hm | hm
        · exact hne hm.symm
        · exact hmem (List.mem_append.mpr (Or.inr hm))
    cases hc : (A ++ e :: B).contains [appName] with
    | false => rfl
    | true => exact absurd (List.mem_of_elem_eq_true hc) hnm

/-- Archiving distributes over a middle entry that belongs to the bundle
root. -/
lemma zipEntries_middle (appName : String) (e : List String)
    (hehead : (e.headI == appName) = true) (A B : List (List String)) :
    zipEntries (A ++ e :: B) appName
      = zipEntries A appName ++ ("Payload" :: e) :: zipEntries B appName := by
  unfold zipEntries
  rw [List.filter_append, List.filter_cons]
  simp only [hehead, if_true]
  rw [List.map_append, List.map_cons]

/-- Archiving distributes over appended layouts. -/
lemma zipEntries_append (appName : String) (A B : List (List String)) :
    zipEntries (A ++ B) appName = zipEntries A appName ++ zipEntries B appName := by
  unfold zipEntries
  rw [List.filter_append, List.map_append]

/-- Given the one-extra-artifact relationship and a drop-side state on
which assembly succeeds, assembly succeeds on both states and the full
archive is a permutation of the degraded archive with exactly the failed
artifact's entry added. -/
lemma archives_differ_by_artifact (bn rel appName displayName : String)
    (hbn : bn ≠ "app")
    (sF sD : RouterState) (hinv : DiffInv bn rel sF sD)
    (happ : lookupStr sD.fileDict "app" = some appName)
    (hne : appName ≠ "")
    (hnd : (sD.fileDict.map Prod.fst).Nodup)
    (hstaged : ∀ kv ∈ sD.fileDict, kv.1 ≠ "app" → [kv.1] ∈ sD.fs)
    (hdir : isDirIn (movedSpec sD.fileDict appName sD.fs) appName = true) :
    (generate_ipa displayName sD.fileDict sD.fs).archive
        = some (zipEntries (movedSpec sD.fileDict appName sD.fs) appName) ∧
      (generate_ipa displayName sF.fileDict sF.fs).archive
        = some (zipEntries (movedSpec sF.fileDict appName sF.fs) appName) ∧
      List.Perm (zipEntries (movedSpec sF.fileDict appName sF.fs) appName)
        (("Payload" :: moveTarget appName rel)
          :: zipEntries (movedSpec sD.fileDict appName sD.fs) appName) := by
  obtain ⟨⟨d1, d2, hdF, hdD, hdfresh⟩, ⟨f1, f2, hfF, hfD, hffresh⟩, _⟩ := hinv
  have hd1fresh : bn ∉ d1.map Prod.fst := by
    intro hm
    exact hdfresh (by rw [List.map_append, List.mem_append]; exact Or.inl hm)
  have happF : lookupStr sF.fileDict "app" = some appName := by
    rw [hdF, lookupStr_middle_ne bn rel "app" (Ne.symm hbn) d1 d2, ← hdD]
    exact happ
  have hkeysdd : (d1 ++ d2).map Prod.fst = sD.fileDict.map Prod.fst := by
    rw [hdD]
  have hndF : (sF.fileDict.map Prod.fst).Nodup := by
    rw [hdF, List.map_append, List.map_cons]
    rw [List.nodup_middle]
    refine List.nodup_cons.mpr ⟨?_, ?_⟩
    · rw [← List.map_append]
      exact hdfresh
    · rw [← List.map_append, hkeysdd]
      exact hnd
  have hstagedF : ∀ kv ∈ sF.fileDict, kv.1 ≠ "app" → [kv.1] ∈ sF.fs := by
    intro kv hkv hne'
    rw [hdF] at hkv
    rw [hfF]
    rcases List.mem_append.mp hkv with hm | hm
    · have hmem : [kv.1] ∈ sD.fs :=
        hstaged kv (by rw [hdD]; exact List.mem_append.mpr (Or.inl hm)) hne'
      rw [hfD] at hmem
      rcases List.mem_append.mp hmem with h | h
      · exact List.mem_append.mpr (Or.inl h)
      · exact List.mem_append.mpr (Or.inr (List.mem_cons_of_mem _ h))
    · rcases List.mem_cons.mp hm with hm | hm
      · rw [hm]
        exact List.mem_append.mpr (Or.inr (List.mem_cons_self _ _))
      · have hmem : [kv.1] ∈ sD.fs :=
          hstaged kv (by rw [hdD]; exact List.mem_append.mpr (Or.inr hm)) hne'
        rw [hfD] at hmem
        rcases List.mem_append.mp hmem with h | h
        · exact List.mem_append.mpr (Or.inl h)
        · exact List.mem_append.mpr (Or.inr (List.mem_cons_of_mem _ h))
  have hmidD : movedSpec sD.fileDict appName sD.fs
      = movedSpec (d1 ++ d2) appName f1 ++ movedSpec (d1 ++ d2) appName f2 := by
    rw [hdD, hfD]
    unfold movedSpec
    rw [List.map_append]
  have hmidF : movedSpec sF.fileDict appName sF.fs
      = movedSpec (d1 ++ d2) appName f1
        ++ moveTarget appName rel :: movedSpec (d1 ++ d2) appName f2 := by
    rw [hdF, hfF]
    exact movedSpec_middle bn rel appName hbn d1 d2 hd1fresh f1 f2 hffresh
  have htargetlen : 2 ≤ (moveTarget appName rel).length := moveTarget_length appName rel
  have htargethead : ((moveTarget appName rel).headI == appName) = true := by
    simp [moveTarget]
  have hdirF : isDirIn (movedSpec sF.fileDict appName sF.fs) appName = true := by
    rw [hmidF]
    apply isDirIn_middle appName _ htargetlen htargethead
    rw [← hmidD]
    exact hdir
  have hgenD := generate_ipa_spec displayName appName sD.fileDict sD.fs
    happ hne hnd hstaged hdir
  have hgenF := generate_ipa_spec displayName appName sF.fileDict sF.fs
    happF hne hndF hstagedF hdirF
  refine ⟨by rw [hgenD], by rw [hgenF], ?_⟩
  rw [hmidF, hmidD]
  rw [zipEntries_middle appName _ htargethead, zipEntries_append]
  exact List.perm_middle

/-- Claim C2: when the remote transfer of one artifact fails (fetch
oracle false exactly on its remote path `r`), the run is not aborted —
the failing message's handler issues the transfer, catches the failure,
logs it and leaves the state intact; every other message is processed
exactly as in the run where the artifact never arrived; the completion
signal is still set when a `done` message is in the stream; and assembly
proceeds, producing an archive that misses exactly the failed artifact's
entry compared to the all-success run. -/
theorem transfer_failure_degrades_gracefully
    (pre post : List FridaMessage) (mr : FridaMessage)
    (plr : List (String × String)) (r origPath displayName appName : String)
    (tree : String → List (List String)) (st0 : RouterState)
    (hmr1 : mr.mtype ≠ some "error")
    (hmr2 : mr.payload = some plr)
    (hmr3 : plr ≠ [])
    (hmr4 : lookupStr plr "type" ≠ some "log")
    (hmr5 : lookupStr plr "dump" = some r)
    (hmr6 : lookupStr plr "path" = some origPath)
    (hbn : pathName r ≠ "app")
    (havoid : ∀ m ∈ pre ++ post, avoidsArtifact r (pathName r) m = true)
    (htree : ∀ s, ∀ p ∈ tree s, 2 ≤ p.length)
    (hfreshfs : [pathName r] ∉ (runMessages (fun _ => true) tree st0 pre).fs)
    (hfreshdict :
      pathName r ∉ ((runMessages (fun _ => true) tree st0 pre).fileDict.map Prod.fst))
    (happ : lookupStr (runMessages (fun _ => true) tree st0 (pre ++ post)).fileDict "app"
      = some appName)
    (hne : appName ≠ "")
    (hnd : ((runMessages (fun _ => true) tree st0 (pre ++ post)).fileDict.map Prod.fst).Nodup)
    (hstaged : ∀ kv ∈ (runMessages (fun _ => true) tree st0 (pre ++ post)).fileDict,
      kv.1 ≠ "app" → [kv.1] ∈ (runMessages (fun _ => true) tree st0 (pre ++ post)).fs)
    (hdir : isDirIn (movedSpec (runMessages (fun _ => true) tree st0 (pre ++ post)).fileDict
      appName (runMessages (fun _ => true) tree st0 (pre ++ post)).fs) appName = true) :
    runMessages (fun x => !(x == r)) tree st0 (pre ++ mr :: post)
        = runMessages (fun _ => true) tree st0 (pre ++ post) ∧
      (∀ s' : RouterState, on_message (fun x => !(x == r)) tree s' mr
        = (s', [HOp.scpGetFile r, HOp.logError])) ∧
      (runMessages (fun x => !(x == r)) tree st0 (pre ++ mr :: post)).finished
        = (st0.finished || (pre ++ mr :: post).any isDoneMessage) ∧
      (generate_ipa displayName
          (runMessages (fun _ => true) tree st0 (pre ++ post)).fileDict
          (runMessages (fun _ => true) tree st0 (pre ++ post)).fs).archive
        = some (zipEntries (movedSpec
            (runMessages (fun _ => true) tree st0 (pre ++ post)).fileDict appName
            (runMessages (fun _ => true) tree st0 (pre ++ post)).fs) appName) ∧
      (generate_ipa displayName
          (runMessages (fun _ => true) tree st0 (pre ++ mr :: post)).fileDict
          (runMessages (fun _ => true) tree st0 (pre ++ mr :: post)).fs).archive
        = some (zipEntries (movedSpec
            (runMessages (fun _ => true) tree st0 (pre ++ mr :: post)).fileDict appName
            (runMessages (fun _ => true) tree st0 (pre ++ mr :: post)).fs) appName) ∧
      List.Perm
        (zipEntries (movedSpec
            (runMessages (fun _ => true) tree st0 (pre ++ mr :: post)).fileDict appName
            (runMessages (fun _ => true) tree st0 (pre ++ mr :: post)).fs) appName)
        (("Payload" :: moveTarget appName (relAfterMarker origPath))
          :: zipEntries (movedSpec
            (runMessages (fun _ => true) tree st0 (pre ++ post)).fileDict appName
            (runMessages (fun _ => true) tree st0 (pre ++ post)).fs) appName) := by
  have hdrop := runMessages_fail_eq_drop r (pathName r) tree pre post mr plr st0
    hmr1 hmr2 hmr3 hmr4 hmr5 havoid
  have hinv : DiffInv (pathName r) (relAfterMarker origPath)
      (runMessages (fun _ => true) tree st0 (pre ++ mr :: post))
      (runMessages (fun _ => true) tree st0 (pre ++ post)) := by
    rw [runMessages_append, runMessages_append, runMessages]
    apply runMessages_preserves_diff (pathName r) (relAfterMarker origPath) r hbn tree htree
      post _ _ (fun m hm => havoid m (List.mem_append.mpr (Or.inr hm)))
    exact on_message_establishes_diff r origPath tree mr plr
      hmr1 hmr2 hmr3 hmr4 hmr5 hmr6 _ hfreshfs hfreshdict
  obtain ⟨harchD, harchF, hperm⟩ :=
    archives_differ_by_artifact (pathName r) (relAfterMarker origPath) appName displayName
      hbn _ _ hinv happ hne hnd hstaged hdir
  exact ⟨hdrop,
    on_message_failing_dump r tree mr plr hmr1 hmr2 hmr3 hmr4 hmr5,
    runMessages_finished (fun x => !(x == r)) tree (pre ++ mr :: post) st0,
    harchD, harchF, hperm⟩

/-- Witness for claim C2 at a concrete stream: one bundle-root message,
one artifact message whose transfer fails, one completion message. -/
theorem transfer_failure_degrades_gracefully_witness :
    (lookupStr [("dump", "/tmp/X.bin"), ("path", "/var/containers/Foo.app/X.bin")] "dump"
        = some "/tmp/X.bin") ∧
    (runMessages (fun x => !(x == "/tmp/X.bin")) wTree ⟨[], [], false⟩
        ([wMsgApp] ++ wMsgDump :: [wMsgDone])
      = runMessages (fun _ => true) wTree ⟨[], [], false⟩ ([wMsgApp] ++ [wMsgDone])) ∧
    (on_message (fun x => !(x == "/tmp/X.bin")) wTree ⟨[], [], false⟩ wMsgDump
      = (⟨[], [], false⟩, [HOp.scpGetFile "/tmp/X.bin", HOp.logError])) ∧
    ((runMessages (fun x => !(x == "/tmp/X.bin")) wTree ⟨[], [], false⟩
        ([wMsgApp] ++ wMsgDump :: [wMsgDone])).finished
      = ((⟨[], [], false⟩ : RouterState).finished
          || ([wMsgApp] ++ wMsgDump :: [wMsgDone]).any isDoneMessage)) ∧
    ((generate_ipa "Foo"
        (runMessages (fun _ => true) wTree ⟨[], [], false⟩ ([wMsgApp] ++ [wMsgDone])).fileDict
        (runMessages (fun _ => true) wTree ⟨[], [], false⟩ ([wMsgApp] ++ [wMsgDone])).fs).archive
      = some (zipEntries (movedSpec
          (runMessages (fun _ => true) wTree ⟨[], [], false⟩ ([wMsgApp] ++ [wMsgDone])).fileDict
          "Foo.app"
          (runMessages (fun _ => true) wTree ⟨[], [], false⟩ ([wMsgApp] ++ [wMsgDone])).fs)
          "Foo.app")) ∧
    ((generate_ipa "Foo"
        (runMessages (fun _ => true) wTree ⟨[], [], false⟩
          ([wMsgApp] ++ wMsgDump :: [wMsgDone])).fileDict
        (runMessages (fun _ => true) wTree ⟨[], [], false⟩
          ([wMsgApp] ++ wMsgDump :: [wMsgDone])).fs).archive
      = some (zipEntries (movedSpec
          (runMessages (fun _ => true) wTree ⟨[], [], false⟩
            ([wMsgApp] ++ wMsgDump :: [wMsgDone])).fileDict
          "Foo.app"
          (runMessages (fun _ => true) wTree ⟨[], [], false⟩
            ([wMsgApp] ++ wMsgDump :: [wMsgDone])).fs)
          "Foo.app")) ∧
    List.Perm
      (zipEntries (movedSpec
          (runMessages (fun _ => true) wTree ⟨[], [], false⟩
            ([wMsgApp] ++ wMsgDump :: [wMsgDone])).fileDict
          "Foo.app"
          (runMessages (fun _ => true) wTree ⟨[], [], false⟩
            ([wMsgApp] ++ wMsgDump :: [wMsgDone])).fs)
          "Foo.app")
      (("Payload" :: moveTarget "Foo.app" (relAfterMarker "/var/containers/Foo.app/X.bin"))
        :: zipEntries (movedSpec
          (runMessages (fun _ => true) wTree ⟨[], [], false⟩ ([wMsgApp] ++ [wMsgDone])).fileDict
          "Foo.app"
          (runMessages (fun _ => true) wTree ⟨[], [], false⟩ ([wMsgApp] ++ [wMsgDone])).fs)
          "Foo.app") := by
  have h := transfer_failure_degrades_gracefully [wMsgApp] [wMsgDone] wMsgDump
    [("dump", "/tmp/X.bin"), ("path", "/var/containers/Foo.app/X.bin")]
    "/tmp/X.bin" "/var/containers/Foo.app/X.bin" "Foo" "Foo.app" wTree ⟨[], [], false⟩
    (by decide) (by decide) (by decide) (by decide) (by decide) (by decide) (by decide)
    (by decide)
    (by
      intro s p hp
      simp only [wTree] at hp
      rw [List.mem_singleton] at hp
      subst hp
      decide)
    (by decide) (by decide) (by decide) (by decide) (by decide) (by decide) (by decide)
  exact ⟨by decide, h.1, h.2.1 ⟨[], [], false⟩, h.2.2.1, h.2.2.2.1,
    h.2.2.2.2.1, h.2.2.2.2.2⟩
